import Mathlib

/-!
A shallow embedding of the aurelia validation-rules module (the rule-provider file:
`RuleProperty`, `PropertyRule`, `validationRulesRegistrar`, `ValidationRules`,
`parsePropertyName`, `ValidationResult`, `ValidationMessageProvider`), together with
proofs about the embedded definitions.

Modelling conventions:
* JS object identity is modelled by natural-number references allocated from counters.
* The external metadata store (`Metadata.define/getOwn/delete` keyed by annotation key
  and target) is modelled as explicit function-valued state.
* JS promises are modelled as values paired with a settle delay (a natural number);
  `Promise.all` settles at the maximum of the component delays and keeps input order.
* Fallible operations return `Except String`; a thrown JS error is the `error` case.
-/

/-! ## Rule-set registrar (`validationRulesRegistrar`) and the metadata store

Rule lists are opaque references (the registrar never inspects their contents; only
reference identity and, for a freshly allocated `[]`, emptiness matter). `listHeap`
records the contents of each allocated list reference.
-/

abbrev TargetId := Nat

structure MetaState where
  /-- `Metadata` slots holding rule lists, keyed by target and full annotation key.
  `Metadata.define` writes a slot, `Metadata.getOwn` reads it, `Metadata.delete`
  clears it (deleted and never-defined slots are indistinguishable to `getOwn`). -/
  slots : TargetId → String → Option Nat
  /-- The `Protocol.annotation.name` slot of each target: the index of annotation keys. -/
  annIndex : TargetId → Option (List String)
  /-- Contents of each allocated rule-list reference. -/
  listHeap : Nat → List Nat
  /-- Allocator for fresh list references (a JS `[]` literal). -/
  nextRef : Nat

def upd2 (f : TargetId → String → Option Nat) (t : TargetId) (k : String)
    (v : Option Nat) : TargetId → String → Option Nat :=
  fun t2 k2 => if t2 = t ∧ k2 = k then v else f t2 k2

def upd1 (f : TargetId → Option (List String)) (t : TargetId)
    (v : Option (List String)) : TargetId → Option (List String) :=
  fun t2 => if t2 = t then v else f t2

def updHeap (f : Nat → List Nat) (r : Nat) (v : List Nat) : Nat → List Nat :=
  fun r2 => if r2 = r then v else f r2

/-- `validationRulesRegistrar.name`. -/
def registrarName : String := "validation-rules"

/-- `validationRulesRegistrar.defaultRuleSetName`. -/
def defaultRuleSetName : String := "__default"

/-- The namespaced rule-set key built in `set`: `` `${name}:${tag ?? default}` ``. -/
def ruleSetKeyName (tag : Option String) : String :=
  registrarName ++ ":" ++ tag.getD defaultRuleSetName

/-- `Protocol.annotation.keyFor(name)` of the external aurelia kernel:
prefixes the name with the annotation namespace. -/
def annKey (name : String) : String := "@annotation:" ++ name

/-- `Protocol.annotation.keyFor(name, context)` (two-argument form). -/
def annKeyCtx (name ctx : String) : String := "@annotation:" ++ name ++ ":" ++ ctx

/-- `validationRulesRegistrar.set(target, rules, tag?)`. -/
def regSet (m : MetaState) (t : TargetId) (rulesRef : Nat) (tag : Option String) :
    MetaState :=
  let key := ruleSetKeyName tag
  let m1 := { m with slots := upd2 m.slots t (annKey key) (some rulesRef) }
  match m1.annIndex t with
  | none => { m1 with annIndex := upd1 m1.annIndex t (some [key]) }
  | some keys => { m1 with annIndex := upd1 m1.annIndex t (some (keys ++ [key])) }

/-- `validationRulesRegistrar.get(target, tag?)`. -/
def regGet (m : MetaState) (t : TargetId) (tag : Option String) : Option Nat :=
  m.slots t (annKeyCtx registrarName (tag.getD defaultRuleSetName))

/-- JS `String.prototype.startsWith` (over the character data). -/
def strStartsWith (s pre : String) : Bool := pre.data.isPrefixOf s.data

/-- JS `String.prototype.endsWith` (over the character data). -/
def strEndsWith (s suf : String) : Bool := suf.data.isSuffixOf s.data

/-- `keys.indexOf(key)` followed by `keys.splice(index, 1)`: removes the first
occurrence of `key` when present. -/
def eraseFirstStr : List String → String → List String
  | [], _ => []
  | k :: ks, key => if k = key then ks else k :: eraseFirstStr ks key

/-- The body of the `for (const key of keys.slice(0))` loop in `unset`: iterates the
copied key list, deleting matching slots and splicing the live key list. -/
def unsetLoop (t : TargetId) (tag : Option String) :
    List String → (TargetId → String → Option Nat) → List String →
    (TargetId → String → Option Nat) × List String
  | [], slots, cur => (slots, cur)
  | k :: rest, slots, cur =>
    if strStartsWith k registrarName ∧ (∀ tg ∈ tag, strEndsWith k tg) then
      unsetLoop t tag rest (upd2 slots t (annKey k) none) (eraseFirstStr cur k)
    else
      unsetLoop t tag rest slots cur

/-- `validationRulesRegistrar.unset(target, tag?)`. The source reads
`Metadata.getOwn(Protocol.annotation.name, target)` and calls `.slice(0)` on it with
no undefined-check; on a target with no annotation index this is a thrown `TypeError`. -/
def regUnset (m : MetaState) (t : TargetId) (tag : Option String) :
    Except String MetaState :=
  match m.annIndex t with
  | none => .error "TypeError: keys is undefined"
  | some keys =>
    let r := unsetLoop t tag keys m.slots keys
    .ok { m with slots := r.1, annIndex := upd1 m.annIndex t (some r.2) }

/-- `validationRulesRegistrar.isValidationRulesSet(target)`. -/
def regIsSet (m : MetaState) (t : TargetId) : Bool :=
  ((m.annIndex t).getD []).any (fun k => strStartsWith k registrarName)

/-! ## `ValidationRules.on` (builder lifecycle over the registrar) -/

structure BuilderLife where
  /-- The builder's current `rules` list (a reference). -/
  rulesRef : Nat
  /-- `targets`: the set of objects this builder instance attached rules to. -/
  targets : List TargetId

/-- `Set.prototype.add`. -/
def addTarget (ts : List TargetId) (t : TargetId) : List TargetId :=
  if t ∈ ts then ts else ts ++ [t]

/-- `ValidationRules.on(target, tag?)`: no-op when the registered list is
reference-identical (`Object.is`) to the builder's `rules`; otherwise
`this.rules = rules ?? []` (a fresh empty list when nothing is registered),
persist via the registrar, and track the target. -/
def vrOn (b : BuilderLife) (m : MetaState) (t : TargetId) (tag : Option String) :
    BuilderLife × MetaState :=
  match regGet m t tag with
  | some r =>
    if r = b.rulesRef then (b, m)
    else ({ rulesRef := r, targets := addTarget b.targets t }, regSet m t r tag)
  | none =>
    let fresh := m.nextRef
    let m0 := { m with nextRef := m.nextRef + 1, listHeap := updHeap m.listHeap fresh [] }
    ({ rulesRef := fresh, targets := addTarget b.targets t }, regSet m0 t fresh tag)

/-! ## Display names (`ValidationMessageProvider.getDisplayName`) -/

/-- The `displayName` argument: a string, a resolver function, or null/undefined. -/
inductive DisplayName where
  | dnAbsent
  | dnStr (s : String)
  | dnFn (f : Unit → String)

/-- `displayName !== null && displayName !== undefined`, with the
`instanceof Function` branch calling the resolver. -/
def resolveDN : DisplayName → Option String
  | .dnAbsent => none
  | .dnStr s => some s
  | .dnFn f => some (f ())

/-- The character class `[A-Z]` of the split regex (ASCII upper-case letters only). -/
def jsUpper (c : Char) : Bool := decide ('A' ≤ c ∧ c ≤ 'Z')

/-- `propertyName.split(/(?=[A-Z])/)`: a zero-width match immediately at the start of
the current segment is skipped by the JS split algorithm, so a new segment starts
exactly before each upper-case letter that does not begin the current segment. -/
def jsSplitAux : List Char → List Char → List (List Char)
  | cur, [] => [cur.reverse]
  | cur, c :: cs =>
    if jsUpper c ∧ cur ≠ [] then cur.reverse :: jsSplitAux [c] cs
    else jsSplitAux (c :: cur) cs

def jsSplitBeforeUpper (s : List Char) : List (List Char) := jsSplitAux [] s

/-- `Array.prototype.join(' ')`. -/
def joinSp : List (List Char) → List Char
  | [] => []
  | [w] => w
  | w :: ws => w ++ ' ' :: joinSp ws

/-- `words.charAt(0).toUpperCase() + words.slice(1)`. -/
def capFirst : List Char → List Char
  | [] => []
  | c :: cs => c.toUpper :: cs

/-- `ValidationMessageProvider.getDisplayName(propertyName, displayName?)`.
(`propertyName.toString()` on a string is the string itself; numeric property names
never arise in this module.) -/
def getDisplayName (propertyName : String) (displayName : DisplayName) : String :=
  match resolveDN displayName with
  | some d => d
  | none =>
    String.mk (capFirst (joinSp (jsSplitBeforeUpper propertyName.data)))

/-- The claim's wording of humanization, as an independent definition: split before
each upper-case letter, join with spaces (equivalently: insert a space before every
upper-case letter after the first position), and capitalize only the first character
of the result. -/
def claimSpaced : List Char → List Char
  | [] => []
  | c :: cs => (if jsUpper c then [' ', c] else [c]) ++ claimSpaced cs

def claimHumanize (s : String) : String :=
  match s.data with
  | [] => ""
  | c :: cs => String.mk (c.toUpper :: claimSpaced cs)

/-! ## Fluent builder (`ValidationRules.ensure/ensureObject`, `PropertyRule` chain)

`PropertyRule` instances and individual rules are identified by references allocated
from the builder's counter; the `ruleList` field holds the builder's `rules` array
with the referenced records inline (mutation of a `PropertyRule` through any alias is
modelled by updating the record with that reference).
-/

/-- The data of a `BaseValidationRule` that the fluent modifiers touch. `setMessage`
and the `canExecute` predicate live in `rules.ts`, which is not part of this source
tree; modelled from the spec: `withMessage` stores the custom message template on the
rule, `when` overrides its `canExecute` predicate (recorded here as a marker). -/
structure BRuleB where
  rid : Nat
  messageKey : Option String := none
  customMessage : Option String := none
  ruleTag : Option String := none
  whenOverridden : Bool := false
deriving DecidableEq

/-- A `PropertyRule` record: its identity, `property.name` (`none` for a whole-object
rule from `ensureObject`), the staged `$rules`, and the private `latestRule`
(a reference to the most recently added rule). -/
structure PRB where
  prid : Nat
  pname : Option String
  stages : List (List BRuleB)
  latest : Option Nat
deriving DecidableEq

/-- A `ValidationRules` builder instance: allocation counter and the `rules` array. -/
structure VRB where
  nextId : Nat
  ruleList : List PRB
deriving DecidableEq

/-- The `r.property.name == name` test of `ValidationRules.ensure` (JS loose
equality). `name` is always a string there (the output of `parsePropertyName`);
against a string, `undefined == name` is false and loose equality of two strings is
ordinary string equality. -/
def looseEqName (n : Option String) (name : String) : Bool :=
  match n with
  | some s => s = name
  | none => false

/-- `ValidationRules.ensure(property)` after property-name resolution: find an
existing `PropertyRule` by loose name equality, else construct and append a fresh
one. Returns the builder and the reference of the returned `PropertyRule`. -/
def vrEnsure (s : VRB) (name : String) : VRB × Nat :=
  match s.ruleList.find? (fun r => looseEqName r.pname name) with
  | some r => (s, r.prid)
  | none =>
    let pr : PRB := ⟨s.nextId, some name, [[]], none⟩
    (⟨s.nextId + 1, s.ruleList ++ [pr]⟩, pr.prid)

/-- `ValidationRules.ensureObject()`: always constructs and appends a fresh
whole-object `PropertyRule`. -/
def vrEnsureObject (s : VRB) : VRB × Nat :=
  let pr : PRB := ⟨s.nextId, none, [[]], none⟩
  (⟨s.nextId + 1, s.ruleList ++ [pr]⟩, pr.prid)

def findPR (s : VRB) (prid : Nat) : Option PRB :=
  s.ruleList.find? (fun r => r.prid = prid)

def updatePR (s : VRB) (prid : Nat) (f : PRB → PRB) : VRB :=
  ⟨s.nextId, s.ruleList.map (fun r => if r.prid = prid then f r else r)⟩

/-- `getLeafRules().push(rule)`: append to the last stage of `$rules`. (The empty
case is unreachable: `$rules` always holds at least one stage.) -/
def appendLeaf : List (List BRuleB) → BRuleB → List (List BRuleB)
  | [], _ => []
  | [st], r => [st ++ [r]]
  | st :: rest, r => st :: appendLeaf rest r

/-- `addRule(rule)` reached through a rule-constructing helper such as `required()`:
allocates a rule, pushes it onto the leaf stage and records it as `latestRule`.
Returns the builder and the new rule's reference. -/
def prAddRule (s : VRB) (prid : Nat) : VRB × Nat :=
  let rid := s.nextId
  let rule : BRuleB := { rid := rid }
  let s1 : VRB := ⟨s.nextId + 1, s.ruleList⟩
  (updatePR s1 prid (fun pr => { pr with stages := appendLeaf pr.stages rule, latest := some rid }), rid)

/-- `assertLatesRule` followed by `this.latestRule.messageKey = key`. -/
def prWithMessageKey (pr : PRB) (key : String) : Except String PRB :=
  match pr.latest with
  | none => .error "No rule has been added"
  | some rid =>
    .ok { pr with stages := pr.stages.map (fun st => st.map (fun r =>
      if r.rid = rid then { r with messageKey := some key } else r)) }

/-- `assertLatesRule` followed by `this.latestRule.setMessage(message)`. -/
def prWithMessage (pr : PRB) (msg : String) : Except String PRB :=
  match pr.latest with
  | none => .error "No rule has been added"
  | some rid =>
    .ok { pr with stages := pr.stages.map (fun st => st.map (fun r =>
      if r.rid = rid then { r with customMessage := some msg } else r)) }

/-- `assertLatesRule` followed by `this.latestRule.canExecute = condition`. -/
def prWhen (pr : PRB) : Except String PRB :=
  match pr.latest with
  | none => .error "No rule has been added"
  | some rid =>
    .ok { pr with stages := pr.stages.map (fun st => st.map (fun r =>
      if r.rid = rid then { r with whenOverridden := true } else r)) }

/-- `assertLatesRule` followed by `this.latestRule.tag = tag`. -/
def prTagRule (pr : PRB) (t : String) : Except String PRB :=
  match pr.latest with
  | none => .error "No rule has been added"
  | some rid =>
    .ok { pr with stages := pr.stages.map (fun st => st.map (fun r =>
      if r.rid = rid then { r with ruleTag := some t } else r)) }

/-- `withMessage` invoked through a `PropertyRule` reference held in a builder. -/
def prWithMessageS (s : VRB) (prid : Nat) (msg : String) : Except String VRB :=
  match findPR s prid with
  | none => .error "no such PropertyRule"
  | some pr => (prWithMessage pr msg).map (fun pr2 => updatePR s prid (fun _ => pr2))

/-- `PropertyRule.ensure(property)`: `this.latestRule = void 0` on the invoked
instance, then delegate to the owning builder's `ensure`. -/
def prEnsureS (s : VRB) (prid : Nat) (name : String) : VRB × Nat :=
  vrEnsure (updatePR s prid (fun pr => { pr with latest := none })) name

/-- `PropertyRule.ensureObject()`: `this.latestRule = void 0`, then delegate. -/
def prEnsureObjectS (s : VRB) (prid : Nat) : VRB × Nat :=
  vrEnsureObject (updatePR s prid (fun pr => { pr with latest := none }))

/-- States reachable through the builder API: every allocated reference is below the
counter. -/
def wfVRB (s : VRB) : Prop := ∀ r ∈ s.ruleList, r.prid < s.nextId

/-! ## Message templates and `ValidationMessageProvider.parseMessage`

The expression parser is an external collaborator; its outputs relevant here are an
`Interpolation` (static parts plus embedded sub-expressions) or some other
(non-interpolation) expression node. Sub-expressions are modelled by the node shapes
`parseMessage` inspects: `AccessScopeExpression` (a `name` and an `ancestor` depth;
`$parent.something` parses to name `something` at ancestor depth 1),
`AccessThisExpression` (`this`/`$parent` by itself), and anything else. -/

inductive IsExpr where
  | accessScope (name : String) (ancestor : Nat)
  | accessThis (ancestor : Nat)
  | otherExpr
deriving DecidableEq

/-- A parsed message template (the output of `parser.parse(message, Interpolation)`). -/
inductive MsgExpr where
  | interp (parts : List String) (exprs : List IsExpr)
  | primLit (value : String)
deriving DecidableEq

/-- The reserved contextual names (`contextualProperties`). -/
def contextualProperties : List String :=
  ["displayName", "propertyName", "value", "object", "config", "getDisplayName"]

/-- `(expr as AccessScopeExpression).name`: `undefined` on the other node kinds. -/
def exprScopeName : IsExpr → Option String
  | .accessScope n _ => some n
  | _ => none

/-- `expr instanceof AccessThisExpression || (expr as AccessScopeExpression).ancestor > 0`
(`undefined > 0` is false). -/
def ancestorViolation : IsExpr → Bool
  | .accessThis _ => true
  | .accessScope _ a => match a with | 0 => false | _ + 1 => true
  | .otherExpr => false

/-- The warning logged for a reserved-name collision. -/
def mkWarnText (n message : String) : String :=
  "Did you mean to use \"$" ++ n ++ "\" instead of \"" ++ n ++
    "\" in this validation message template: \"" ++ message ++ "\"?"

def warnFor (message : String) (e : IsExpr) : Option String :=
  match exprScopeName e with
  | some n => if n ∈ contextualProperties then some (mkWarnText n message) else none
  | none => none

/-- The `for (const expr of parsed.expressions)` loop: log a warning on a reserved
name, then throw on an ancestor reference (aborting the loop). Returns the warnings
logged so far and whether the loop threw. -/
def parseMessageLoop (message : String) : List IsExpr → List String → List String × Bool
  | [], warns => (warns, false)
  | e :: es, warns =>
    let warns2 := match warnFor message e with
      | some w => warns ++ [w]
      | none => warns
    if ancestorViolation e then (warns2, true)
    else parseMessageLoop message es warns2

inductive ParsedMessage where
  | interpolationOut (parts : List String) (exprs : List IsExpr)
  | primitiveLiteral (value : String)
deriving DecidableEq

/-- `ValidationMessageProvider.parseMessage(message)`, over the parser's output for
`message`. Returns the warnings logged and the outcome (a thrown error or the
returned expression; a non-interpolation parse is wrapped as a primitive literal of
the message text). -/
def parseMessageM (message : String) (parsed : MsgExpr) :
    List String × Except String ParsedMessage :=
  match parsed with
  | .interp parts exprs =>
    let r := parseMessageLoop message exprs []
    (r.1,
      if r.2 then .error "$parent is not permitted in validation message expressions."
      else .ok (.interpolationOut parts exprs))
  | .primLit _ => ([], .ok (.primitiveLiteral message))

/-! ## `PropertyRule.validate`

A rule's `execute` returns `boolean | Promise<boolean>`; a promise is modelled by its
settle delay together with the boolean it resolves to. `Promise.all` keeps input
order and settles at the maximum of the component delays; chained stages settle at
the sum of the stage settle times. `validate` returns the overall settle time and
the list of `ValidationResult`s.
-/

inductive ExecResult where
  | sync (b : Bool)
  | promise (delay : Nat) (b : Bool)

def execBool : ExecResult → Bool
  | .sync b => b
  | .promise _ b => b

def execDelay : ExecResult → Nat
  | .sync _ => 0
  | .promise d _ => d

/-- A `BaseValidationRule` as consumed by `validate`: identity, the `canExecute`
guard, the `tag`, the `execute` predicate and the (already resolved) `message`
expression. -/
structure VRule where
  rid : Nat
  canExec : Option Nat → Bool
  rtagV : Option String
  exec : Int → Option Nat → ExecResult
  message : MsgExpr

/-- A `PropertyRule` as consumed by `validate`: its `RuleProperty` (name and display
name) and the staged `$rules`. -/
structure PRuleV where
  name : Option String
  displayNameV : DisplayName
  stages : List (List VRule)

/-- The synthesized scope of a failing rule. Only the string-valued slots that
message templates in the claims reference are modelled (`$object`, `$value`, `$rule`
and `$getDisplayName` hold non-string values whose JS string conversions no claim
exercises). -/
structure MsgScope where
  sDisplayName : Option String
  sPropertyName : Option String

/-- `$displayName: (displayName instanceof Function ? displayName() : displayName) ?? name`
and `$propertyName: name`. -/
def mkScope (pr : PRuleV) : MsgScope :=
  ⟨(resolveDN pr.displayNameV).orElse (fun _ => pr.name), pr.name⟩

/-- Interpolating an `undefined` value renders the text `undefined`. -/
def jsStr : Option String → String
  | some s => s
  | none => "undefined"

def evalScopeVar (sc : MsgScope) (name : String) : String :=
  if name = "$displayName" then jsStr sc.sDisplayName
  else if name = "$propertyName" then jsStr sc.sPropertyName
  else "undefined"

def evalExprStr (sc : MsgScope) : IsExpr → String
  | .accessScope n 0 => evalScopeVar sc n
  | .accessScope _ (_ + 1) => "undefined"
  | .accessThis _ => "undefined"
  | .otherExpr => "undefined"

/-- Interpolation evaluation: static parts interleaved with evaluated expressions. -/
def interleave : List String → List String → String
  | p :: ps, e :: es => p ++ e ++ interleave ps es
  | p :: _, [] => p
  | [], _ => ""

/-- `rule.message.evaluate(flags, scope, null)`. -/
def evalMsg (m : MsgExpr) (sc : MsgScope) : String :=
  match m with
  | .interp parts exprs => interleave parts (exprs.map (evalExprStr sc))
  | .primLit v => v

/-- The `ValidationResult` produced for one rule (`isValidOrPromise`, the evaluated
message on failure, the property name, the object and the rule; the auto-increment
`id`, the `propertyRule` back-reference and `isManual` are not modelled). -/
structure VResult where
  validR : Bool
  messageR : Option String
  propertyNameR : Option String
  objectR : Option Nat
  ruleIdR : Nat
deriving DecidableEq

/-- `validateRule`: run `execute` (awaiting a promise), build the scope and evaluate
the rule's message on failure. Returns the settle delay and the result. -/
def validateRule (pr : PRuleV) (value : Int) (obj : Option Nat) (rule : VRule) :
    Nat × VResult :=
  let outcome := rule.exec value obj
  let b := execBool outcome
  let msg := if b then none else some (evalMsg rule.message (mkScope pr))
  (execDelay outcome, ⟨b, msg, pr.name, obj, rule.rid⟩)

/-- `rule.canExecute(object) && (tag === void 0 || rule.tag === tag)`. -/
def eligibleRule (obj : Option Nat) (tag : Option String) (r : VRule) : Bool :=
  r.canExec obj && (match tag with
    | none => true
    | some t => match r.rtagV with
      | some rt => rt = t
      | none => false)

/-- The `for (const rule of rules)` loop of `validateRuleset`: push a
`validateRule` promise for every eligible rule, in declaration order. -/
def stagePromises (pr : PRuleV) (value : Int) (obj : Option Nat)
    (tag : Option String) : List VRule → List (Nat × VResult)
  | [] => []
  | r :: rs =>
    if eligibleRule obj tag r then
      validateRule pr value obj r :: stagePromises pr value obj tag rs
    else stagePromises pr value obj tag rs

/-- `Promise.all(promises)`: settles at the maximum delay, results in input order. -/
def promiseAll (ps : List (Nat × VResult)) : Nat × List VResult :=
  (ps.foldl (fun t p => Nat.max t p.1) 0, ps.map Prod.snd)

def validateRuleset (pr : PRuleV) (value : Int) (obj : Option Nat)
    (tag : Option String) (rules : List VRule) : Nat × List VResult :=
  promiseAll (stagePromises pr value obj tag rules)

/-- The `$rules.reduce` of `validate` runs synchronously: each `if (isValid)` guard
executes while the promise chain is being built, before any `.then` callback (and
hence before any rule body) has run, so the guard reads the initial value of
`isValid` (`true`) for every stage. `chainStages` is that synchronous chain
construction. -/
def chainStages (isValidAtChain : Bool) (stages : List (List VRule)) :
    List (List VRule) :=
  stages.foldl (fun acc st => if isValidAtChain then acc ++ [st] else acc) []

/-- Running the chained stage callbacks in order: each accumulates its results after
the previous stage settles. -/
def runStages (pr : PRuleV) (value : Int) (obj : Option Nat) (tag : Option String) :
    List (List VRule) → Nat × List VResult
  | [] => (0, [])
  | st :: rest =>
    let r := validateRuleset pr value obj tag st
    let k := runStages pr value obj tag rest
    (r.1 + k.1, r.2 ++ k.2)

/-- `PropertyRule.validate(value, object, tag, flags)`: chain construction with
`isValid` initially `true`, then the chained stages run in order. -/
def validate (pr : PRuleV) (value : Int) (obj : Option Nat) (tag : Option String) :
    Nat × List VResult :=
  runStages pr value obj tag (chainStages true pr.stages)

/-! ## `parsePropertyName`

The accessor-function source text is matched against the two source regexes:

classic: `^function\s*\([$_\w\d]+\)\s*\{(?:\s*["']{1}use strict["']{1};)?\s*`
         `(?:[$_\w\d.['"\]+;]+)?\s*return\s+[$_\w\d]+((\.[$_\w\d]+|\[['"$_\w\d]+\])+)\s*;?\s*\}$`

arrow:   `^\(?[$_\w\d]+\)?\s*=>\s*[$_\w\d]+((\.[$_\w\d]+|\[['"$_\w\d]+\])+)$`

The matchers below translate the regexes component by component. Quantifiers over
character classes are taken greedily; this coincides with the backtracking regex
semantics everywhere except at the `(?:[$_\w\d.['"\]+;]+)?` statement block of the
classic form (whose class overlaps the following literal `return`), where the match
lengths are tried longest-first exactly as a backtracking engine would. The capture
(group 1) is the accessor chain.
-/

/-- The class `[$_\w\d]` (`\w` is `[A-Za-z0-9_]`). -/
def identChar (c : Char) : Bool :=
  c = '$' || c = '_' || decide ('a' ≤ c ∧ c ≤ 'z') || decide ('A' ≤ c ∧ c ≤ 'Z') ||
    decide ('0' ≤ c ∧ c ≤ '9')

/-- `\s` (the ASCII part; accessor source texts are ASCII). -/
def wsChar (c : Char) : Bool :=
  c = ' ' || c = '\t' || c = '\n' || c = '\r' || c = '\x0b' || c = '\x0c'

def quoteChar (c : Char) : Bool := c = '\'' || c = '"'

/-- The class `['"$_\w\d]` inside an index access. -/
def bracketInnerChar (c : Char) : Bool := quoteChar c || identChar c

/-- The class `[$_\w\d.['"\]+;]` of the optional statement block. -/
def middleChar (c : Char) : Bool :=
  identChar c || c = '.' || c = '[' || quoteChar c || c = ']' || c = '+' || c = ';'

/-- Consume one or more characters of a class (`[..]+`), greedily. -/
def take1Plus (p : Char → Bool) (cs : List Char) : Option (List Char × List Char) :=
  let a := cs.takeWhile p
  if a.isEmpty then none else some (a, cs.dropWhile p)

/-- `\s*`, greedily. -/
def skipWs (cs : List Char) : List Char := cs.dropWhile wsChar

/-- Consume a literal. -/
def dropLit : List Char → List Char → Option (List Char)
  | [], cs => some cs
  | _ :: _, [] => none
  | l :: ls, c :: cs => if c = l then dropLit ls cs else none

/-- Require one literal character (`\(`, `\)`, `\{`, `\]`, `;`). -/
def expectChar (c : Char) : List Char → Option (List Char)
  | x :: r => if x = c then some r else none
  | [] => none

/-- An optional single literal character (`\(?`, `\)?`, `;?`). -/
def dropCharIf (c : Char) : List Char → List Char
  | x :: r => if x = c then r else x :: r
  | [] => []

/-- One accessor segment: `\.[$_\w\d]+` or `\[['"$_\w\d]+\]`. -/
def chainSeg (cs : List Char) : Option (List Char × List Char) :=
  if cs.head? = some '.' then
    (take1Plus identChar cs.tail).bind (fun p => some ('.' :: p.1, p.2))
  else if cs.head? = some '[' then
    (take1Plus bracketInnerChar cs.tail).bind (fun p =>
      (expectChar ']' p.2).bind (fun rest2 => some ('[' :: (p.1 ++ [']']), rest2)))
  else none

/-- Group 1, `((\.[$_\w\d]+|\[['"$_\w\d]+\])+)`: one or more segments, greedily.
Each segment consumes at least one character, so the input length bounds the
iteration count. -/
def chainAux : Nat → List Char → Option (List Char × List Char)
  | 0, _ => none
  | fuel + 1, cs =>
    (chainSeg cs).bind (fun p =>
      some (match chainAux fuel p.2 with
            | some q => (p.1 ++ q.1, q.2)
            | none => p))

def chainCap (cs : List Char) : Option (List Char × List Char) :=
  chainAux (cs.length + 1) cs

/-- The end of the arrow regex after the leading `[$_\w\d]+`: group 1 anchored at
`$`. -/
def arrowFinish (s : List Char) : Option (List Char) :=
  (chainCap s).bind (fun p => if p.2.isEmpty then some p.1 else none)

/-- The arrow regex, anchored at both ends; returns the group-1 capture. -/
def matchArrow (cs : List Char) : Option (List Char) :=
  (take1Plus identChar (dropCharIf '(' cs)).bind (fun p1 =>
    (dropLit ['=', '>'] (skipWs (dropCharIf ')' p1.2))).bind (fun s5 =>
      (take1Plus identChar (skipWs s5)).bind (fun p3 =>
        arrowFinish p3.2)))

/-- The trailer `\s*;?\s*\}$` of the classic regex, after group 1. -/
def tailFinish (cap s4 : List Char) : Option (List Char) :=
  if skipWs (dropCharIf ';' (skipWs s4)) = ['}'] then some cap else none

/-- `return\s+[$_\w\d]+(group 1)\s*;?\s*\}$`, from the position of `return`. -/
def classicTail (cs : List Char) : Option (List Char) :=
  (dropLit ('r' :: 'e' :: 't' :: 'u' :: 'r' :: 'n' :: []) cs).bind (fun s1 =>
    (take1Plus wsChar s1).bind (fun p2 =>
      (take1Plus identChar p2.2).bind (fun p3 =>
        (chainCap p3.2).bind (fun p4 => tailFinish p4.1 p4.2))))

/-- Try the optional statement block `(?:[$_\w\d.['"\]+;]+)?` at length `k`, then
`\s*` and the tail; on failure retry with a shorter block (longest first, as a
backtracking engine would). -/
def middleLoop (cs : List Char) : Nat → Option (List Char)
  | 0 => classicTail (skipWs cs)
  | k + 1 =>
    (classicTail (skipWs (cs.drop (k + 1)))).orElse (fun _ => middleLoop cs k)

/-- After `\{` and the optional use-strict prologue: `\s*(?:statement block)?\s*`
then the tail. -/
def classicAfterBrace (cs : List Char) : Option (List Char) :=
  middleLoop (skipWs cs) (((skipWs cs).takeWhile middleChar).length)

/-- The optional prologue `(?:\s*["']{1}use strict["']{1};)?` (the two quote
characters are independent in the regex). Returns the remainder when it matches. -/
def useStrictTry (cs : List Char) : Option (List Char) :=
  match skipWs cs with
  | q :: s2 =>
    if quoteChar q then
      (dropLit ('u' :: 's' :: 'e' :: ' ' :: 's' :: 't' :: 'r' :: 'i' :: 'c' :: 't' :: []) s2).bind
        (fun s3 =>
          match s3 with
          | q2 :: s4 => if quoteChar q2 then expectChar ';' s4 else none
          | [] => none)
    else none
  | [] => none

/-- The classic regex, anchored at both ends; returns the group-1 capture. The
optional prologue is tried first and dropped when the continuation fails. -/
def matchClassic (cs : List Char) : Option (List Char) :=
  (dropLit ('f' :: 'u' :: 'n' :: 'c' :: 't' :: 'i' :: 'o' :: 'n' :: []) cs).bind (fun s1 =>
    (expectChar '(' (skipWs s1)).bind (fun s3 =>
      (take1Plus identChar s3).bind (fun p4 =>
        (expectChar ')' p4.2).bind (fun s5 =>
          (expectChar '{' (skipWs s5)).bind (fun s7 =>
            ((useStrictTry s7).bind (fun s8 => classicAfterBrace s8)).orElse
              (fun _ => classicAfterBrace s7))))))

/-- The `property` argument of `parsePropertyName`: a string, a function (carrying
its `toString()` source text), or any other value (carrying the text the error
template interpolates for it). -/
inductive PropInput where
  | strInput (s : String)
  | fnInput (src : String)
  | otherInput (src : String)

def accessorErrText (src : String) : String :=
  "Unable to parse accessor function:\n" ++ src

/-- `parsePropertyName(property, parser)`, returning the resolved property-name
string (the accompanying `parser.parse(property, BindingType.None)` call into the
external expression parser compiles that string unchanged). A string is used
verbatim; a function's source is matched by `classic.exec(fn) ?? arrow.exec(fn)` and
the capture loses its first character (`match[1].substring(1)`); everything else
throws. -/
def parsePropertyNameM : PropInput → Except String String
  | .strInput s => .ok s
  | .fnInput src =>
    match matchClassic src.data with
    | some cap => .ok (String.mk (cap.drop 1))
    | none =>
      match matchArrow src.data with
      | some cap => .ok (String.mk (cap.drop 1))
      | none => .error (accessorErrText src)
  | .otherInput src => .error (accessorErrText src)

/-! ## Concrete instances used in the theorems -/

/-- The default `canExecute` of `BaseValidationRule`: unconditionally true. -/
def alwaysExec : Option Nat → Bool := fun _ => true

/-- An untagged rule whose `execute` always fails synchronously (stage 0 of the
short-circuit scenario). -/
def c1FailRule : VRule := ⟨1, alwaysExec, none, fun _ _ => .sync false, .primLit "stage0 failed"⟩

/-- An untagged rule whose `execute` always passes synchronously (stage 1 of the
short-circuit scenario). -/
def c1PassRule : VRule := ⟨2, alwaysExec, none, fun _ _ => .sync true, .primLit "fine"⟩

/-- The short-circuit scenario: stage 0 holds one always-failing rule, stage 1 one
always-passing rule. -/
def c1PR : PRuleV := ⟨some "p", .dnAbsent, [[c1FailRule], [c1PassRule]]⟩

/-- A synchronously failing rule, declared first in its stage. -/
def c8SyncFail : VRule := ⟨1, alwaysExec, none, fun _ _ => .sync false, .primLit "bad"⟩

/-- An asynchronously passing rule settling after 5 ticks, declared second. -/
def c8AsyncPass : VRule := ⟨2, alwaysExec, none, fun _ _ => .promise 5 true, .primLit "fine"⟩

/-- One stage holding the synchronous failure and the later-settling success. -/
def c8PR : PRuleV := ⟨some "q", .dnAbsent, [[c8SyncFail, c8AsyncPass]]⟩

/-- A failing rule whose message is the parsed interpolation of
the template containing the `$displayName` reference followed by the text
` is required`. -/
def c3ReqRule : VRule :=
  ⟨1, alwaysExec, none, fun _ _ => .sync false,
    .interp ["", " is required"] [.accessScope "$displayName" 0]⟩

/-- Property `firstName` with no explicit display name and the `is required` rule. -/
def c3PR : PRuleV := ⟨some "firstName", .dnAbsent, [[c3ReqRule]]⟩

/-- Builder chain `ensure(a).required()` followed by
`ensure(b).ensure(a).withMessage(...)`: the states along the chain. -/
def c4S0 : VRB := ⟨0, []⟩

def c4E1 : VRB × Nat := vrEnsure c4S0 "a"

def c4S2 : VRB := (prAddRule c4E1.1 c4E1.2).1

def c4E3 : VRB × Nat := vrEnsure c4S2 "b"

def c4E4 : VRB × Nat := prEnsureS c4E3.1 c4E3.2 "a"

def c4Out : Except String VRB := prWithMessageS c4E4.1 c4E4.2 "custom"

def exceptIsOk {ε α : Type} : Except ε α → Bool
  | .ok _ => true
  | .error _ => false

/-- A metadata store with no registrations and no allocations. -/
def emptyMeta : MetaState := ⟨fun _ _ => none, fun _ => none, fun _ => [], 0⟩

/-- A builder lifecycle state whose current rules reference is 99. -/
def c2B0 : BuilderLife := ⟨99, []⟩

/-- The empty builder state. -/
def vrb0 : VRB := ⟨0, []⟩

/-! # Theorems -/

/-! ## Registrar helpers -/

theorem strAppendAssoc (a b c : String) : a ++ b ++ c = a ++ (b ++ c) := by
  apply String.ext
  simp

theorem annKeyCtx_eq_annKey (tag : Option String) :
    annKeyCtx registrarName (tag.getD defaultRuleSetName) = annKey (ruleSetKeyName tag) := by
  simp [annKey, annKeyCtx, ruleSetKeyName, strAppendAssoc]

theorem regGet_regSet (m : MetaState) (t : TargetId) (r : Nat) (tag : Option String) :
    regGet (regSet m t r tag) t tag = some r := by
  unfold regGet regSet
  cases h : m.annIndex t <;> simp [h, upd2, annKeyCtx_eq_annKey]

theorem regSet_listHeap (m : MetaState) (t : TargetId) (r : Nat) (tag : Option String) :
    (regSet m t r tag).listHeap = m.listHeap := by
  unfold regSet
  cases h : m.annIndex t <;> simp [h]

theorem mem_addTarget (ts : List TargetId) (t : TargetId) : t ∈ addTarget ts t := by
  unfold addTarget
  split
  · assumption
  · simp

/-- Claim C10: on a target whose annotation-key index is absent (no rule set was
ever registered on it), `validationRulesRegistrar.unset` does not return normally:
it throws while iterating the undefined key list. -/
theorem C10_unset_unregistered_target_throws (m : MetaState) (t : TargetId)
    (tag : Option String) (h : m.annIndex t = none) :
    regUnset m t tag = .error "TypeError: keys is undefined" := by
  unfold regUnset
  rw [h]

theorem C10_witness :
    emptyMeta.annIndex 0 = none ∧
    regUnset emptyMeta 0 none = .error "TypeError: keys is undefined" :=
  ⟨rfl, C10_unset_unregistered_target_throws emptyMeta 0 none rfl⟩

/-- Claim C5: on a previously untouched target, `set(target, rules, "t1")` then
`get(target, "t1")` returns the identical list reference; `get(target)` with no tag
returns undefined; and `unset(target, "t1")` removes the only registration, after
which `isValidationRulesSet(target)` is false (the key is removed from the
tracked-key index, not merely emptied). -/
theorem C5_registrar_roundtrip (m : MetaState) (t : TargetId) (r : Nat)
    (hIdx : m.annIndex t = none)
    (hDef : m.slots t (annKeyCtx registrarName defaultRuleSetName) = none) :
    regGet (regSet m t r (some "t1")) t (some "t1") = some r ∧
    regGet (regSet m t r (some "t1")) t none = none ∧
    ∃ m2, regUnset (regSet m t r (some "t1")) t (some "t1") = .ok m2 ∧
      regIsSet m2 t = false := by
  have hkeys : (regSet m t r (some "t1")).annIndex t = some [ruleSetKeyName (some "t1")] := by
    unfold regSet
    simp only [hIdx]
    simp [upd1]
  have hne : annKeyCtx registrarName defaultRuleSetName ≠ annKey (ruleSetKeyName (some "t1")) := by
    decide
  have hloop : unsetLoop t (some "t1") [ruleSetKeyName (some "t1")]
      (regSet m t r (some "t1")).slots [ruleSetKeyName (some "t1")] =
      (upd2 (regSet m t r (some "t1")).slots t (annKey (ruleSetKeyName (some "t1"))) none, []) := by
    unfold unsetLoop
    rw [if_pos (by decide)]
    unfold unsetLoop
    simp [eraseFirstStr]
  refine ⟨regGet_regSet m t r (some "t1"), ?_, ?_⟩
  · unfold regGet regSet
    cases h : m.annIndex t <;> simp [h, upd2, Option.getD, hne, hDef]
  · unfold regUnset
    rw [hkeys]
    refine ⟨_, rfl, ?_⟩
    simp [regIsSet, upd1, hloop]

theorem C5_witness :
    regGet (regSet emptyMeta 0 5 (some "t1")) 0 (some "t1") = some 5 ∧
    regGet (regSet emptyMeta 0 5 (some "t1")) 0 none = none ∧
    ∃ m2, regUnset (regSet emptyMeta 0 5 (some "t1")) 0 (some "t1") = .ok m2 ∧
      regIsSet m2 0 = false :=
  C5_registrar_roundtrip emptyMeta 0 5 rfl rfl

/-- Claim C2: `on(target, tag)` is a no-op when the registered rule list is
reference-identical (`Object.is`) to the builder's current `rules`; otherwise the
builder adopts the registered set when one exists, else its rules become a fresh
empty list, and in both non-no-op cases the resulting list is persisted via the
registrar and the target is tracked. -/
theorem C2_on_noop_adopt_persist (b : BuilderLife) (m : MetaState) (t : TargetId)
    (tag : Option String) (r : Nat) :
    (regGet m t tag = some b.rulesRef → vrOn b m t tag = (b, m)) ∧
    (regGet m t tag = some r → r ≠ b.rulesRef →
      (vrOn b m t tag).1.rulesRef = r ∧
      regGet (vrOn b m t tag).2 t tag = some r ∧
      t ∈ (vrOn b m t tag).1.targets) ∧
    (regGet m t tag = none →
      (vrOn b m t tag).1.rulesRef = m.nextRef ∧
      (vrOn b m t tag).2.listHeap m.nextRef = [] ∧
      regGet (vrOn b m t tag).2 t tag = some m.nextRef ∧
      t ∈ (vrOn b m t tag).1.targets) := by
  refine ⟨?_, ?_, ?_⟩
  · intro h
    unfold vrOn
    rw [h]
    simp
  · intro h hne
    simp only [vrOn, h]
    rw [if_neg hne]
    refine ⟨by trivial, regGet_regSet _ t r tag, mem_addTarget b.targets t⟩
  · intro h
    simp only [vrOn, h]
    refine ⟨by trivial, ?_, regGet_regSet _ t m.nextRef tag, mem_addTarget b.targets t⟩
    rw [regSet_listHeap]
    simp [updHeap]

theorem C2_witness :
    regGet emptyMeta 0 none = none ∧
    (vrOn c2B0 emptyMeta 0 none).1.rulesRef = 0 ∧
    (vrOn c2B0 emptyMeta 0 none).2.listHeap 0 = [] ∧
    regGet (vrOn c2B0 emptyMeta 0 none).2 0 none = some 0 ∧
    0 ∈ (vrOn c2B0 emptyMeta 0 none).1.targets := by
  refine ⟨rfl, ?_⟩
  have h := (C2_on_noop_adopt_persist c2B0 emptyMeta 0 none 0).2.2 rfl
  exact h

/-- Claim C1 (code bug): on a `PropertyRule` whose stage 0 holds one always-failing
rule and whose stage 1 holds one always-passing rule, `validate` does not
short-circuit: the `if (isValid)` guard of the `$rules.reduce` runs synchronously
while the promise chain is being built, before any rule has executed, so stage 1 is
chained and executed anyway, and `validate` returns two results (the failure of the
stage-0 rule followed by the success of the stage-1 rule) instead of the single
stage-0 result the specification describes. -/
theorem C1_validate_does_not_short_circuit :
    validate c1PR 0 none none =
      (0, [⟨false, some "stage0 failed", some "p", none, 1⟩,
           ⟨true, none, some "p", none, 2⟩]) ∧
    (validate c1PR 0 none none).2.length = 2 ∧
    (validate c1PR 0 none none).2.map VResult.ruleIdR = [c1FailRule.rid, c1PassRule.rid] := by
  refine ⟨by decide, by decide, by decide⟩

/-! ## Humanization (claim C3) -/

theorem jsSplitAux_ne_nil (l : List Char) : ∀ cur, jsSplitAux cur l ≠ [] := by
  induction l with
  | nil => intro cur; simp [jsSplitAux]
  | cons c cs ih =>
    intro cur
    unfold jsSplitAux
    split
    · simp
    · exact ih _

theorem joinSp_jsSplitAux (l : List Char) : ∀ cur, cur ≠ [] →
    joinSp (jsSplitAux cur l) = cur.reverse ++ claimSpaced l := by
  induction l with
  | nil =>
    intro cur h
    simp [jsSplitAux, joinSp, claimSpaced]
  | cons c cs ih =>
    intro cur h
    unfold jsSplitAux
    by_cases hc : jsUpper c = true
    · rw [if_pos ⟨hc, h⟩]
      cases hsp : jsSplitAux [c] cs with
      | nil => exact absurd hsp (jsSplitAux_ne_nil cs [c])
      | cons w ws =>
        have ihc := ih [c] (by simp)
        rw [hsp] at ihc
        have hj : joinSp (cur.reverse :: w :: ws) = cur.reverse ++ ' ' :: joinSp (w :: ws) := rfl
        rw [hj, ihc]
        simp [claimSpaced, hc]
    · rw [if_neg (by simp [hc])]
      rw [ih (c :: cur) (by simp)]
      simp [claimSpaced, hc]

/-- Claim C3, amended: `getDisplayName` with no explicit display name humanizes the
property name by splitting before each upper-case letter, joining with spaces, and
up-casing only the first character of the result — so `getDisplayName("firstName")`
is `First Name` (the later capitals are kept). `PropertyRule.validate`'s message
scope, however, sets `$displayName` to `displayName ?? name` without calling
`getDisplayName`, so the template rendering the `$displayName` reference followed by
` is required` on property `firstName` produces `firstName is required`. -/
theorem C3_amended_humanize_and_raw_scope :
    (∀ p : String, getDisplayName p .dnAbsent = claimHumanize p) ∧
    getDisplayName "firstName" .dnAbsent = "First Name" ∧
    (validate c3PR 0 none none).2.map VResult.messageR = [some "firstName is required"] := by
  refine ⟨?_, by decide, by decide⟩
  intro p
  unfold getDisplayName resolveDN claimHumanize jsSplitBeforeUpper
  cases hd : p.data with
  | nil => simp [jsSplitAux, joinSp, capFirst]
  | cons c cs =>
    unfold jsSplitAux
    rw [if_neg (by simp)]
    rw [joinSp_jsSplitAux cs [c] (by simp)]
    simp [capFirst]

/-- Claim C3, counterexample: the example rule on `firstName` with no explicit
display name renders `firstName is required` (and `getDisplayName` itself yields
`First Name`), not the `First name is required` the claim asserts. -/
theorem C3_counterexample_render :
    (validate c3PR 0 none none).2.map VResult.messageR = [some "firstName is required"] ∧
    getDisplayName "firstName" .dnAbsent = "First Name" ∧
    "firstName is required" ≠ "First name is required" ∧
    "First Name is required" ≠ "First name is required" := by
  refine ⟨by decide, by decide, by decide, by decide⟩

/-! ## Stage evaluation (claims C8 and C1) -/

theorem stagePromises_eq (pr : PRuleV) (value : Int) (obj : Option Nat)
    (tag : Option String) (rules : List VRule) :
    stagePromises pr value obj tag rules =
      (rules.filter (eligibleRule obj tag)).map (validateRule pr value obj) := by
  induction rules with
  | nil => rfl
  | cons r rs ih =>
    unfold stagePromises
    rw [List.filter_cons]
    by_cases h : eligibleRule obj tag r = true <;> simp [h, ih]

theorem chainStages_aux (stages : List (List VRule)) : ∀ acc,
    stages.foldl (fun a st => a ++ [st]) acc = acc ++ stages := by
  induction stages with
  | nil => intro acc; simp
  | cons s ss ih =>
    intro acc
    rw [List.foldl_cons, ih]
    simp

theorem chainStages_true (stages : List (List VRule)) :
    chainStages true stages = stages := by
  have hf : (fun (a : List (List VRule)) (st : List VRule) =>
      if true then a ++ [st] else a) = fun a st => a ++ [st] := by
    funext a st
    simp
  unfold chainStages
  rw [hf, chainStages_aux]
  simp

theorem runStages_results (pr : PRuleV) (value : Int) (obj : Option Nat)
    (tag : Option String) (sts : List (List VRule)) :
    (runStages pr value obj tag sts).2 =
      sts.flatMap (fun st => (validateRuleset pr value obj tag st).2) := by
  induction sts with
  | nil => rfl
  | cons st rest ih => simp [runStages, ih]

theorem validateRuleset_results (pr : PRuleV) (value : Int) (obj : Option Nat)
    (tag : Option String) (rules : List VRule) :
    (validateRuleset pr value obj tag rules).2 =
      (rules.filter (eligibleRule obj tag)).map (fun r => (validateRule pr value obj r).2) := by
  unfold validateRuleset promiseAll
  rw [stagePromises_eq]
  simp [List.map_map, Function.comp]

theorem le_foldl_max (ps : List (Nat × VResult)) : ∀ a : Nat,
    a ≤ ps.foldl (fun t p => Nat.max t p.1) a := by
  induction ps with
  | nil => intro a; simp
  | cons p ps ih => intro a; exact le_trans (Nat.le_max_left a p.1) (ih _)

theorem mem_le_foldl_max (ps : List (Nat × VResult)) (x : Nat × VResult)
    (hx : x ∈ ps) : ∀ a : Nat, x.1 ≤ ps.foldl (fun t p => Nat.max t p.1) a := by
  induction ps with
  | nil => cases hx
  | cons p ps ih =>
    intro a
    cases hx with
    | head => exact le_trans (Nat.le_max_right a _) (le_foldl_max ps _)
    | tail _ hx2 => exact ih hx2 _

theorem mem_stagePromises (pr : PRuleV) (value : Int) (obj : Option Nat)
    (tag : Option String) (rules : List VRule) (r : VRule)
    (hr : r ∈ rules) (he : eligibleRule obj tag r = true) :
    validateRule pr value obj r ∈ stagePromises pr value obj tag rules := by
  induction rules with
  | nil => cases hr
  | cons x xs ih =>
    unfold stagePromises
    cases hr with
    | head =>
      rw [if_pos he]
      exact List.Mem.head _
    | tail _ hr2 =>
      by_cases hx : eligibleRule obj tag x = true
      · rw [if_pos hx]
        exact List.Mem.tail _ (ih hr2)
      · rw [if_neg hx]
        exact ih hr2

theorem delay_le_validateRuleset (pr : PRuleV) (value : Int) (obj : Option Nat)
    (tag : Option String) (rules : List VRule) (r : VRule)
    (hr : r ∈ rules) (he : eligibleRule obj tag r = true) :
    execDelay (r.exec value obj) ≤ (validateRuleset pr value obj tag rules).1 := by
  have hm := mem_stagePromises pr value obj tag rules r hr he
  have h1 : (validateRule pr value obj r).1 = execDelay (r.exec value obj) := rfl
  rw [← h1]
  exact mem_le_foldl_max _ _ hm 0

theorem stageTime_le_runStages (pr : PRuleV) (value : Int) (obj : Option Nat)
    (tag : Option String) (sts : List (List VRule)) (st : List VRule)
    (hst : st ∈ sts) :
    (validateRuleset pr value obj tag st).1 ≤ (runStages pr value obj tag sts).1 := by
  induction sts with
  | nil => cases hst
  | cons s ss ih =>
    cases hst with
    | head => exact Nat.le_add_right _ _
    | tail _ h => exact le_trans (ih h) (Nat.le_add_left _ _)

/-- Claim C8: for every stage of a `PropertyRule`, `validate` executes exactly the
eligible rules of the stage (those whose `canExecute(object)` is true and, when a
tag is given, whose `tag` is strictly equal to it); each stage's results appear in
the returned list in the rules' declaration order within the stage (the result list
is determined by the declaration order alone, independently of the rules' settle
delays), and `validate` settles no earlier than every eligible rule's own settle
delay. -/
theorem C8_stage_eligibility_order_settling (pr : PRuleV) (value : Int)
    (obj : Option Nat) (tag : Option String) :
    (validate pr value obj tag).2 =
      pr.stages.flatMap (fun st => (st.filter (eligibleRule obj tag)).map
        (fun r => (validateRule pr value obj r).2)) ∧
    (∀ st ∈ pr.stages, ∀ r ∈ st, eligibleRule obj tag r = true →
      execDelay (r.exec value obj) ≤ (validate pr value obj tag).1) := by
  constructor
  · unfold validate
    rw [chainStages_true, runStages_results]
    simp only [validateRuleset_results]
  · intro st hst r hr he
    unfold validate
    rw [chainStages_true]
    exact le_trans (delay_le_validateRuleset pr value obj tag st r hr he)
      (stageTime_le_runStages pr value obj tag pr.stages st hst)

theorem C8_witness :
    (validate c8PR 0 none none).2 =
      [⟨false, some "bad", some "q", none, 1⟩, ⟨true, none, some "q", none, 2⟩] ∧
    (validate c8PR 0 none none).1 = 5 ∧
    execDelay (c8AsyncPass.exec 0 none) ≤ (validate c8PR 0 none none).1 ∧
    execDelay (c8SyncFail.exec 0 none) ≤ (validate c8PR 0 none none).1 := by
  refine ⟨by decide, by decide, ?_, ?_⟩
  · exact (C8_stage_eligibility_order_settling c8PR 0 none none).2
      [c8SyncFail, c8AsyncPass] (List.Mem.head _)
      c8AsyncPass (List.Mem.tail _ (List.Mem.head _)) (by decide)
  · exact (C8_stage_eligibility_order_settling c8PR 0 none none).2
      [c8SyncFail, c8AsyncPass] (List.Mem.head _)
      c8SyncFail (List.Mem.head _) (by decide)

/-! ## `parseMessage` (claim C6) -/

theorem parseMessageLoop_throw_iff (message : String) (es : List IsExpr) : ∀ ws,
    (parseMessageLoop message es ws).2 = true ↔ ∃ e ∈ es, ancestorViolation e = true := by
  induction es with
  | nil => intro ws; simp [parseMessageLoop]
  | cons e es ih =>
    intro ws
    simp only [parseMessageLoop]
    by_cases hv : ancestorViolation e = true <;> simp [hv, ih]

theorem parseMessageLoop_warns (message : String) (es : List IsExpr) :
    (∀ e ∈ es, ancestorViolation e = false) → ∀ ws,
    (parseMessageLoop message es ws).1 = ws ++ es.filterMap (warnFor message) := by
  induction es with
  | nil => intro _ ws; simp [parseMessageLoop]
  | cons e es ih =>
    intro h ws
    have he : ancestorViolation e = false := h e (List.Mem.head _)
    have htl : ∀ e2 ∈ es, ancestorViolation e2 = false :=
      fun e2 h2 => h e2 (List.Mem.tail _ h2)
    simp only [parseMessageLoop]
    cases hw : warnFor message e with
    | none =>
      rw [if_neg (by simp [he])]
      rw [ih htl ws]
      simp [List.filterMap_cons, hw]
    | some w =>
      rw [if_neg (by simp [he])]
      rw [ih htl (ws ++ [w])]
      simp [List.filterMap_cons, hw]

/-- Claim C6: `parseMessage` throws exactly when the compiled interpolation contains
a sub-expression referencing an ancestor scope (`$parent`, or an implicit `this` at
the outer scope); a top-level variable reference colliding with a reserved
contextual name only produces a logged warning, and when no ancestor reference is
present the template compiles with exactly those warnings. -/
theorem C6_parseMessage_ancestor_fatal_reserved_warn (message : String)
    (parts : List String) (exprs : List IsExpr) :
    (((parseMessageM message (.interp parts exprs)).2 =
        .error "$parent is not permitted in validation message expressions.") ↔
      ∃ e ∈ exprs, ancestorViolation e = true) ∧
    ((∀ e ∈ exprs, ancestorViolation e = false) →
      (parseMessageM message (.interp parts exprs)).2 =
        .ok (.interpolationOut parts exprs) ∧
      (parseMessageM message (.interp parts exprs)).1 =
        exprs.filterMap (warnFor message)) := by
  constructor
  · rw [← parseMessageLoop_throw_iff message exprs []]
    unfold parseMessageM
    cases hb : (parseMessageLoop message exprs []).2 <;> simp [hb]
  · intro h
    have hb : (parseMessageLoop message exprs []).2 = false := by
      cases hb2 : (parseMessageLoop message exprs []).2
      · rfl
      · obtain ⟨e, he, hv⟩ := (parseMessageLoop_throw_iff message exprs []).mp hb2
        rw [h e he] at hv
        cases hv
    constructor
    · unfold parseMessageM
      simp [hb]
    · have := parseMessageLoop_warns message exprs h []
      simpa [parseMessageM] using this

theorem C6_witness :
    (parseMessageM "parent-template"
        (.interp ["", " oops"] [.accessScope "something" 1])).2 =
      .error "$parent is not permitted in validation message expressions." ∧
    (parseMessageM "value-template" (.interp ["", " v"] [.accessScope "value" 0])).2 =
      .ok (.interpolationOut ["", " v"] [.accessScope "value" 0]) ∧
    (parseMessageM "value-template" (.interp ["", " v"] [.accessScope "value" 0])).1 =
      [mkWarnText "value" "value-template"] := by
  have h1 := (C6_parseMessage_ancestor_fatal_reserved_warn "parent-template"
    ["", " oops"] [.accessScope "something" 1]).1.mpr
    ⟨.accessScope "something" 1, List.Mem.head _, rfl⟩
  have h2 := (C6_parseMessage_ancestor_fatal_reserved_warn "value-template"
    ["", " v"] [.accessScope "value" 0]).2 (by decide)
  refine ⟨h1, h2.1, ?_⟩
  rw [h2.2]
  decide

/-! ## `ensure`/`ensureObject` reuse (claim C7) -/

theorem find?_append_none {α : Type} (p : α → Bool) (l1 l2 : List α)
    (h : l1.find? p = none) : (l1 ++ l2).find? p = l2.find? p := by
  induction l1 with
  | nil => simp
  | cons a l ih =>
    by_cases hp : p a = true
    · rw [List.find?_cons_of_pos _ hp] at h
      cases h
    · rw [List.find?_cons_of_neg _ hp] at h
      rw [List.cons_append, List.find?_cons_of_neg _ hp]
      exact ih h

/-- Claim C7: two `ensure` calls with names equal under JS loose equality (which,
for the string names this module produces, is string equality) return the same
`PropertyRule` instance, while `ensureObject` always constructs and appends a fresh
`PropertyRule` and never reuses an existing one. -/
theorem C7_ensure_reuse_ensureObject_fresh (s : VRB) (n1 n2 : String) :
    (n1 = n2 → (vrEnsure (vrEnsure s n1).1 n2).2 = (vrEnsure s n1).2) ∧
    ((vrEnsureObject s).1.ruleList = s.ruleList ++ [⟨s.nextId, none, [[]], none⟩] ∧
      (vrEnsureObject s).2 = s.nextId) ∧
    (wfVRB s → (vrEnsureObject s).2 ∉ s.ruleList.map PRB.prid) := by
  refine ⟨?_, ⟨rfl, rfl⟩, ?_⟩
  · intro heq
    subst heq
    cases hf : s.ruleList.find? (fun r => looseEqName r.pname n1) with
    | some r => simp only [vrEnsure, hf]
    | none =>
      simp only [vrEnsure, hf]
      rw [find?_append_none _ _ _ hf]
      simp [List.find?, looseEqName]
  · intro hwf hmem
    simp only [vrEnsureObject] at hmem
    obtain ⟨r, hr, hid⟩ := List.mem_map.mp hmem
    have := hwf r hr
    omega

theorem C7_witness :
    (vrEnsure (vrEnsure vrb0 "a").1 "a").2 = (vrEnsure vrb0 "a").2 ∧
    (vrEnsureObject vrb0).2 ∉ vrb0.ruleList.map PRB.prid := by
  refine ⟨(C7_ensure_reuse_ensureObject_fresh vrb0 "a" "a").1 rfl,
    (C7_ensure_reuse_ensureObject_fresh vrb0 "a" "a").2.2 ?_⟩
  intro r hr
  simp [vrb0] at hr

/-! ## Builder-chain boundaries (claim C4) -/

theorem reset_preserves_pname (a : PRB) (prid : Nat) :
    (if a.prid = prid then { a with latest := none } else a).pname = a.pname := by
  split <;> rfl

theorem reset_preserves_prid (a : PRB) (prid : Nat) :
    (if a.prid = prid then { a with latest := none } else a).prid = a.prid := by
  split <;> rfl

theorem find?_name_reset_none (l : List PRB) (prid : Nat) (name : String)
    (h : l.find? (fun r => looseEqName r.pname name) = none) :
    (l.map (fun x => if x.prid = prid then { x with latest := none } else x)).find?
      (fun r => looseEqName r.pname name) = none := by
  induction l with
  | nil => rfl
  | cons a l ih =>
    rw [List.map_cons]
    simp only [List.find?_cons] at h ⊢
    rw [reset_preserves_pname]
    cases hp : looseEqName a.pname name with
    | true =>
      rw [hp] at h
      exact Option.noConfusion h
    | false =>
      rw [hp] at h
      exact ih h

theorem mem_reset_list (l : List PRB) (prid : Nat) (r : PRB)
    (hr : r ∈ l.map (fun x => if x.prid = prid then { x with latest := none } else x))
    (hid : r.prid = prid) : r.latest = none := by
  obtain ⟨x, hx, hxr⟩ := List.mem_map.mp hr
  by_cases h : x.prid = prid
  · rw [if_pos h] at hxr
    rw [← hxr]
  · rw [if_neg h] at hxr
    subst hxr
    exact absurd hid h

theorem find?_prid_none (l : List PRB) (n : Nat) (h : ∀ r ∈ l, r.prid < n) :
    l.find? (fun r => r.prid = n) = none := by
  induction l with
  | nil => rfl
  | cons a l ih =>
    have ha := h a (List.Mem.head _)
    rw [List.find?_cons_of_neg]
    · exact ih (fun r hr => h r (List.Mem.tail _ hr))
    · simp
      omega

theorem wf_reset_list (s : VRB) (prid : Nat) :
    ∀ r ∈ (updatePR s prid (fun pr => { pr with latest := none })).ruleList,
      wfVRB s → r.prid < s.nextId := by
  intro r hr hwf
  unfold updatePR at hr
  obtain ⟨x, hx, hxr⟩ := List.mem_map.mp hr
  have := hwf x hx
  rw [← hxr, reset_preserves_prid]
  exact this

theorem prEnsureS_resets_invoked (s : VRB) (prid : Nat) (name : String) (pr2 : PRB)
    (h : findPR (prEnsureS s prid name).1 prid = some pr2) : pr2.latest = none := by
  have hmem := List.mem_of_find?_eq_some h
  have hpred := List.find?_some h
  have hid : pr2.prid = prid := by simpa using hpred
  unfold prEnsureS vrEnsure updatePR at hmem
  cases hf : (s.ruleList.map
      (fun x => if x.prid = prid then { x with latest := none } else x)).find?
      (fun r => looseEqName r.pname name) with
  | some r =>
    rw [hf] at hmem
    exact mem_reset_list s.ruleList prid pr2 hmem hid
  | none =>
    rw [hf] at hmem
    rcases List.mem_append.mp hmem with hl | hr
    · exact mem_reset_list s.ruleList prid pr2 hl hid
    · rw [List.mem_singleton.mp hr]

theorem prEnsureObjectS_resets_invoked (s : VRB) (prid : Nat) (pr2 : PRB)
    (h : findPR (prEnsureObjectS s prid).1 prid = some pr2) : pr2.latest = none := by
  have hmem := List.mem_of_find?_eq_some h
  have hpred := List.find?_some h
  have hid : pr2.prid = prid := by simpa using hpred
  unfold prEnsureObjectS vrEnsureObject updatePR at hmem
  rcases List.mem_append.mp hmem with hl | hr
  · exact mem_reset_list s.ruleList prid pr2 hl hid
  · rw [List.mem_singleton.mp hr]

/-- Claim C4, amended: each fluent modifier (`withMessageKey`, `withMessage`,
`when`, `tag`) throws `No rule has been added` exactly when the `PropertyRule`
instance it is invoked on has no `latestRule`; `PropertyRule.ensure`/`ensureObject`
reset the *invoked* instance's `latestRule`; and a modifier called immediately after
`ensureObject`, or after an `ensure` that creates a fresh `PropertyRule` (no
existing rule matches the name), throws. (When `ensure` returns a *reused*
`PropertyRule`, its `latestRule` persists from the earlier chain and the modifier
does not throw — see the counterexample.) -/
theorem C4_amended_chain_boundary (pr : PRB) (s : VRB) (prid : Nat)
    (name key msg tg : String) :
    (pr.latest = none →
      prWithMessageKey pr key = .error "No rule has been added" ∧
      prWithMessage pr msg = .error "No rule has been added" ∧
      prWhen pr = .error "No rule has been added" ∧
      prTagRule pr tg = .error "No rule has been added") ∧
    (pr.latest ≠ none → ∃ pr2, prWithMessage pr msg = .ok pr2) ∧
    (∀ pr2, findPR (prEnsureS s prid name).1 prid = some pr2 → pr2.latest = none) ∧
    (∀ pr2, findPR (prEnsureObjectS s prid).1 prid = some pr2 → pr2.latest = none) ∧
    (wfVRB s → s.ruleList.find? (fun r => looseEqName r.pname name) = none →
      prWithMessageS (prEnsureS s prid name).1 (prEnsureS s prid name).2 msg =
        .error "No rule has been added") ∧
    (wfVRB s →
      prWithMessageS (prEnsureObjectS s prid).1 (prEnsureObjectS s prid).2 msg =
        .error "No rule has been added") := by
  refine ⟨?_, ?_, ?_, ?_, ?_, ?_⟩
  · intro h
    unfold prWithMessageKey prWithMessage prWhen prTagRule
    rw [h]
    exact ⟨rfl, rfl, rfl, rfl⟩
  · intro h
    unfold prWithMessage
    cases hl : pr.latest with
    | none => exact absurd hl h
    | some rid => exact ⟨_, rfl⟩
  · exact fun pr2 => prEnsureS_resets_invoked s prid name pr2
  · exact fun pr2 => prEnsureObjectS_resets_invoked s prid pr2
  · intro hwf hnone
    have hres : prEnsureS s prid name =
        (⟨s.nextId + 1,
          (updatePR s prid (fun pr => { pr with latest := none })).ruleList ++
            [⟨s.nextId, some name, [[]], none⟩]⟩, s.nextId) := by
      unfold prEnsureS vrEnsure
      rw [show (updatePR s prid (fun pr => { pr with latest := none })).ruleList =
        s.ruleList.map (fun x => if x.prid = prid then { x with latest := none } else x) from rfl]
      rw [find?_name_reset_none s.ruleList prid name hnone]
      rfl
    rw [hres]
    unfold prWithMessageS findPR
    rw [find?_append_none]
    · simp [List.find?, prWithMessage, Except.map]
    · exact find?_prid_none _ s.nextId
        (fun r hr => wf_reset_list s prid r hr hwf)
  · intro hwf
    unfold prEnsureObjectS vrEnsureObject prWithMessageS findPR
    rw [find?_append_none]
    · simp [List.find?, prWithMessage, Except.map]
    · exact find?_prid_none _ s.nextId
        (fun r hr => wf_reset_list s prid r hr hwf)

/-- Claim C4, counterexample: after the chain `ensure(a).required()`, the chain
`ensure(b).ensure(a).withMessage(...)` ends with `withMessage` invoked immediately
after `PropertyRule.ensure` with no rule-adding call in between, and it succeeds
instead of throwing: the `ensure(a)` returned the reused `PropertyRule` of `a`,
whose `latestRule` still points at the `required` rule of the earlier chain. -/
theorem C4_counterexample_reused_latest :
    c4E4.2 = c4E1.2 ∧ exceptIsOk c4Out = true := by
  exact ⟨by decide, by decide⟩

theorem C4_witness :
    prWithMessage ⟨0, some "a", [[]], none⟩ "m" = .error "No rule has been added" ∧
    prWithMessageS (prEnsureS vrb0 0 "x").1 (prEnsureS vrb0 0 "x").2 "m" =
      .error "No rule has been added" ∧
    prWithMessageS (prEnsureObjectS vrb0 0).1 (prEnsureObjectS vrb0 0).2 "m" =
      .error "No rule has been added" := by
  have hwf : wfVRB vrb0 := by
    intro r hr
    simp [vrb0] at hr
  refine ⟨((C4_amended_chain_boundary ⟨0, some "a", [[]], none⟩ vrb0 0 "x" "k" "m" "t").1 rfl).2.1,
    (C4_amended_chain_boundary ⟨0, some "a", [[]], none⟩ vrb0 0 "x" "k" "m" "t").2.2.2.2.1 hwf rfl,
    (C4_amended_chain_boundary ⟨0, some "a", [[]], none⟩ vrb0 0 "x" "k" "m" "t").2.2.2.2.2 hwf⟩


/-! ## `parsePropertyName` (claim C9) -/

theorem chainSeg_head (cs seg rest : List Char)
    (h : chainSeg cs = some (seg, rest)) :
    seg.head? = some '.' ∨ seg.head? = some '[' := by
  unfold chainSeg at h
  by_cases h1 : cs.head? = some '.'
  · rw [if_pos h1] at h
    simp only [Option.bind_eq_some] at h
    obtain ⟨p, _, hp⟩ := h
    simp only [Option.some.injEq, Prod.mk.injEq] at hp
    rw [← hp.1]
    left
    rfl
  · rw [if_neg h1] at h
    by_cases h2 : cs.head? = some '['
    · rw [if_pos h2] at h
      simp only [Option.bind_eq_some] at h
      obtain ⟨p, _, r2, _, hp⟩ := h
      simp only [Option.some.injEq, Prod.mk.injEq] at hp
      rw [← hp.1]
      right
      rfl
    · rw [if_neg h2] at h
      exact Option.noConfusion h

theorem chainAux_head (fuel : Nat) : ∀ cs cap rest,
    chainAux fuel cs = some (cap, rest) →
    cap.head? = some '.' ∨ cap.head? = some '[' := by
  induction fuel with
  | zero =>
    intro cs cap rest h
    exact Option.noConfusion h
  | succ f ih =>
    intro cs cap rest h
    unfold chainAux at h
    simp only [Option.bind_eq_some, Option.some.injEq] at h
    obtain ⟨p, hp, hm⟩ := h
    obtain ⟨seg, r1⟩ := p
    have hseg := chainSeg_head cs seg r1 hp
    cases hq : chainAux f r1 with
    | none =>
      rw [hq] at hm
      have h3 : (seg, r1) = (cap, rest) := hm
      rw [← (Prod.mk.injEq _ _ _ _ |>.mp h3).1]
      exact hseg
    | some q =>
      rw [hq] at hm
      have h3 : (seg ++ q.1, q.2) = (cap, rest) := hm
      rw [← (Prod.mk.injEq _ _ _ _ |>.mp h3).1]
      cases seg with
      | nil => simp at hseg
      | cons c0 segt => exact hseg

theorem chainCap_head (cs cap rest : List Char)
    (h : chainCap cs = some (cap, rest)) :
    cap.head? = some '.' ∨ cap.head? = some '[' :=
  chainAux_head (cs.length + 1) cs cap rest h

theorem arrowFinish_head (s cap : List Char) (h : arrowFinish s = some cap) :
    cap.head? = some '.' ∨ cap.head? = some '[' := by
  unfold arrowFinish at h
  simp only [Option.bind_eq_some] at h
  obtain ⟨p, hp, hif⟩ := h
  by_cases he : p.2.isEmpty = true
  · rw [if_pos he] at hif
    rw [← Option.some.injEq _ _ |>.mp hif]
    exact chainCap_head s p.1 p.2 (by rw [hp])
  · rw [if_neg he] at hif
    exact Option.noConfusion hif

theorem matchArrow_head (cs cap : List Char) (h : matchArrow cs = some cap) :
    cap.head? = some '.' ∨ cap.head? = some '[' := by
  unfold matchArrow at h
  simp only [Option.bind_eq_some] at h
  obtain ⟨p1, _, s5, _, p3, _, hfin⟩ := h
  exact arrowFinish_head p3.2 cap hfin

theorem tailFinish_eq (cap s4 c : List Char) (h : tailFinish cap s4 = some c) :
    c = cap := by
  unfold tailFinish at h
  by_cases hc : skipWs (dropCharIf ';' (skipWs s4)) = ['}']
  · rw [if_pos hc] at h
    exact (Option.some.injEq _ _ |>.mp h).symm
  · rw [if_neg hc] at h
    exact Option.noConfusion h

theorem classicTail_head (cs cap : List Char) (h : classicTail cs = some cap) :
    cap.head? = some '.' ∨ cap.head? = some '[' := by
  unfold classicTail at h
  simp only [Option.bind_eq_some] at h
  obtain ⟨s1, _, p2, _, p3, _, p4, hp4, hfin⟩ := h
  rw [tailFinish_eq p4.1 p4.2 cap hfin]
  exact chainCap_head p3.2 p4.1 p4.2 (by rw [hp4])

theorem middleLoop_head (cs : List Char) : ∀ k cap, middleLoop cs k = some cap →
    cap.head? = some '.' ∨ cap.head? = some '[' := by
  intro k
  induction k with
  | zero =>
    intro cap h
    exact classicTail_head _ cap h
  | succ k2 ih =>
    intro cap h
    unfold middleLoop at h
    cases hc : classicTail (skipWs (cs.drop (k2 + 1))) with
    | none =>
      rw [hc] at h
      have h2 : middleLoop cs k2 = some cap := h
      exact ih cap h2
    | some c2 =>
      rw [hc] at h
      have h2 : (some c2 : Option (List Char)) = some cap := h
      rw [← Option.some.injEq _ _ |>.mp h2]
      exact classicTail_head _ c2 hc

theorem classicAfterBrace_head (cs cap : List Char)
    (h : classicAfterBrace cs = some cap) :
    cap.head? = some '.' ∨ cap.head? = some '[' :=
  middleLoop_head (skipWs cs) _ cap h

theorem matchClassic_head (cs cap : List Char) (h : matchClassic cs = some cap) :
    cap.head? = some '.' ∨ cap.head? = some '[' := by
  unfold matchClassic at h
  simp only [Option.bind_eq_some] at h
  obtain ⟨s1, _, s3, _, p4, _, s5, _, s7, _, hfin⟩ := h
  cases hu : useStrictTry s7 with
  | none =>
    rw [hu] at hfin
    have h2 : classicAfterBrace s7 = some cap := hfin
    exact classicAfterBrace_head s7 cap h2
  | some s8 =>
    rw [hu] at hfin
    simp only [Option.some_bind] at hfin
    cases hb : classicAfterBrace s8 with
    | none =>
      rw [hb] at hfin
      have h2 : classicAfterBrace s7 = some cap := hfin
      exact classicAfterBrace_head s7 cap h2
    | some c8 =>
      rw [hb] at hfin
      have h2 : (some c8 : Option (List Char)) = some cap := hfin
      rw [← Option.some.injEq _ _ |>.mp h2]
      exact classicAfterBrace_head s8 c8 hb

/-- Claim C9: `parsePropertyName` accepts a string verbatim as the property name;
it accepts a function only when its source text matches one of the two recognized
shapes (the classic `function` declaration returning a chained member/index access
off its single parameter, or the arrow-function equivalent), in which case the
extracted accessor path is the matched chain with its leading character (the leading
dot of a dot access) removed; any other function shape, and any argument that is
neither a string nor a function, throws an error whose text embeds the offending
source. -/
theorem C9_parsePropertyName (src : String) (cap : List Char) :
    (parsePropertyNameM (.strInput src) = .ok src) ∧
    (parsePropertyNameM (.otherInput src) =
      .error ("Unable to parse accessor function:\n" ++ src)) ∧
    (matchClassic src.data = none → matchArrow src.data = none →
      parsePropertyNameM (.fnInput src) =
        .error ("Unable to parse accessor function:\n" ++ src)) ∧
    (matchClassic src.data = some cap →
      parsePropertyNameM (.fnInput src) = .ok (String.mk (cap.drop 1)) ∧
      (cap.head? = some '.' ∨ cap.head? = some '[')) ∧
    (matchClassic src.data = none → matchArrow src.data = some cap →
      parsePropertyNameM (.fnInput src) = .ok (String.mk (cap.drop 1)) ∧
      (cap.head? = some '.' ∨ cap.head? = some '[')) := by
  have hdef : parsePropertyNameM (.fnInput src) =
      (match matchClassic src.data with
       | some c => Except.ok (String.mk (c.drop 1))
       | none =>
         match matchArrow src.data with
         | some c => Except.ok (String.mk (c.drop 1))
         | none => Except.error (accessorErrText src)) := rfl
  refine ⟨rfl, rfl, ?_, ?_, ?_⟩
  · intro hc ha
    rw [hdef, hc, ha]
    rfl
  · intro hc
    refine ⟨?_, matchClassic_head src.data cap hc⟩
    rw [hdef, hc]
  · intro hc ha
    refine ⟨?_, matchArrow_head src.data cap ha⟩
    rw [hdef, hc, ha]

theorem C9_witness :
    parsePropertyNameM (.strInput "addr") = .ok "addr" ∧
    parsePropertyNameM (.fnInput "x => x.firstName") = .ok "firstName" ∧
    (matchArrow ("x => x.firstName").data).map List.head? = some (some '.') ∧
    parsePropertyNameM (.fnInput "function(o){ return o.a.b; }") = .ok "a.b" ∧
    parsePropertyNameM (.fnInput "x => x") =
      .error ("Unable to parse accessor function:\n" ++ "x => x") ∧
    parsePropertyNameM (.otherInput "42") =
      .error ("Unable to parse accessor function:\n" ++ "42") := by
  have harrow : matchArrow ("x => x.firstName").data = some (".firstName").data := by decide
  have hnoclassic : matchClassic ("x => x.firstName").data = none := by decide
  have hclassic : matchClassic ("function(o){ return o.a.b; }").data = some (".a.b").data := by
    decide
  have hno1 : matchClassic ("x => x").data = none := by decide
  have hno2 : matchArrow ("x => x").data = none := by decide
  refine ⟨(C9_parsePropertyName "addr" []).1, ?_, ?_, ?_, ?_,
    (C9_parsePropertyName "42" []).2.1⟩
  · exact ((C9_parsePropertyName "x => x.firstName" (".firstName").data).2.2.2.2
      hnoclassic harrow).1
  · decide
  · exact ((C9_parsePropertyName "function(o){ return o.a.b; }" (".a.b").data).2.2.2.1
      hclassic).1
  · exact (C9_parsePropertyName "x => x" []).2.2.1 hno1 hno2
